import Mathlib

/-!
Verification development for the skill-transfer recommendation engine of the
nursing insights application.  The engine is the method
`InsightService.compute_skill_transfer_options` of
`src/services/insight_service.py`, together with its inner helper
`safe_parse_skills`.  The embedding below renders the pandas pipeline as pure
list processing: data-frame rows become records, NaN-able numeric cells become
`Option` values, and the three error message strings become the three
constructors of `ErrReason`.  Hourly pay amounts are modelled as rationals;
the pipeline only subtracts and compares them.
-/

namespace NursingApp

/-- Single and double quote characters, deleted everywhere by the parser. -/
def isQuote (c : Char) : Bool := c == Char.ofNat 39 || c == Char.ofNat 34

/-- Square bracket characters, stripped from both ends of the raw text. -/
def isBracket (c : Char) : Bool := c == '[' || c == ']'

/-- Whitespace test used to model the Python no-argument strip. -/
def pyIsSpace (c : Char) : Bool := c.isWhitespace

/-- Removes the maximal trailing run of elements satisfying `p`. -/
def dropWhileEnd (p : Char → Bool) : List Char → List Char
  | [] => []
  | a :: as =>
    let r := dropWhileEnd p as
    if r.isEmpty && p a then [] else a :: r

/-- Model of the Python two-sided strip over the character class `p`. -/
def stripChars (p : Char → Bool) (l : List Char) : List Char :=
  dropWhileEnd p (l.dropWhile p)

/-- Model of the Python split on the comma character. -/
def splitComma : List Char → List (List Char)
  | [] => [[]]
  | c :: cs =>
    if c == ',' then [] :: splitComma cs
    else
      match splitComma cs with
      | [] => [[c]]
      | t :: ts => (c :: t) :: ts

/-- The value found in the shared_skill_names cell of an overlap row: either a
string, or some non-string value (a structured list, a missing cell, a
number); the parser returns the empty list on every non-string. -/
inductive SkillField where
  | str (s : String)
  | nonString
deriving DecidableEq

/-- One row of the specialty skill-overlap table (skills_df). -/
structure OverlapRow where
  specialty_1 : String
  specialty_2 : String
  shared_skill_names : SkillField
  avg_importance : ℚ
  overlap_percentage : ℚ
deriving DecidableEq

/-- One row of the average-pay benchmark table (avg_pay_df); a NaN average
base pay cell is `none` and is removed by the dropna step. -/
structure PayRow where
  specialty : String
  avg_base_pay : Option ℚ
  total_years_of_experience_group : String
  state : String
deriving DecidableEq

/-- One output row: the columns selected at the end of the pipeline. -/
structure Candidate where
  specialty_2 : String
  avg_base_pay : ℚ
  pay_increase : ℚ
  shared_skill_names : List String
  avg_importance : ℚ
  overlap_percentage : ℚ
  total_years_of_experience_group : String
  state : String
deriving DecidableEq

/-- The three error message strings the source returns, as an enumeration:
`missingSpecialty` is the message about a missing or null specialty,
`noOverlapData` is the message that no skill overlap data is available, and
`noPositiveTransfer` is the message that no higher-paying specialty with
strong skill overlap was found. -/
inductive ErrReason where
  | missingSpecialty
  | noOverlapData
  | noPositiveTransfer
deriving DecidableEq

/-- Embedding of `safe_parse_skills`: strip brackets from both ends, delete
quote characters, and if anything remains split on commas, trim whitespace
and drop empty tokens. -/
def safe_parse_skills : SkillField → List String
  | .nonString => []
  | .str s =>
    let cleaned := (stripChars isBracket s.data).filter (fun c => !isQuote c)
    if cleaned.isEmpty then []
    else
      let toks := (splitComma cleaned).map (stripChars pyIsSpace)
      (toks.filter (fun t => !t.isEmpty)).map (fun t => String.mk t)

/-- Character-wise lower casing, the model of the Python lower method. -/
def pyLower (s : String) : String := String.mk (s.data.map Char.toLower)

/-- The guard `not specialty or pd.isna(specialty)`: `none` models both a
null and a NaN specialty, and the empty string is falsy in Python. -/
def specialtyMissing : Option String → Bool
  | none => true
  | some s => s == ""

/-- The rows of skills_df whose specialty_1 case-insensitively equals the
query specialty. -/
def overlapsOf (sp : String) (skills_df : List OverlapRow) : List OverlapRow :=
  skills_df.filter (fun r => pyLower r.specialty_1 == pyLower sp)

/-- The rows of avg_pay_df whose experience group and state both exactly
equal the query keys. -/
def avgFilteredOf (eg st : String) (avg_pay_df : List PayRow) : List PayRow :=
  avg_pay_df.filter (fun p => p.total_years_of_experience_group == eg && p.state == st)

/-- The left merge on specialty_2 = specialty followed by dropna on
avg_base_pay: the kept rows are exactly the matched pairs whose benchmark
average base pay is present. -/
def mergedOf (sp eg st : String) (skills_df : List OverlapRow) (avg_pay_df : List PayRow) :
    List (OverlapRow × PayRow × ℚ) :=
  (overlapsOf sp skills_df).flatMap (fun o =>
    ((avgFilteredOf eg st avg_pay_df).filter (fun p => p.specialty == o.specialty_2)).filterMap
      (fun p => p.avg_base_pay.map (fun ab => (o, p, ab))))

/-- Shapes one merged row into an output row, parsing the skill cell. -/
def mkCandidate (o : OverlapRow) (p : PayRow) (ab inc : ℚ) : Candidate :=
  { specialty_2 := o.specialty_2, avg_base_pay := ab, pay_increase := inc,
    shared_skill_names := safe_parse_skills o.shared_skill_names,
    avg_importance := o.avg_importance, overlap_percentage := o.overlap_percentage,
    total_years_of_experience_group := p.total_years_of_experience_group, state := p.state }

/-- The merged rows surviving the pay-delta filter pay_increase > 0.  A null
(NaN) base pay makes every delta NaN, and a NaN comparison is false, so
nothing survives in that case. -/
def survivorsOf (sp : String) (user_base_pay : Option ℚ) (eg st : String)
    (skills_df : List OverlapRow) (avg_pay_df : List PayRow) : List Candidate :=
  match user_base_pay with
  | none => []
  | some b =>
    (mergedOf sp eg st skills_df avg_pay_df).filterMap (fun x =>
      if 0 < x.2.2 - b then some (mkCandidate x.1 x.2.1 x.2.2 (x.2.2 - b)) else none)

/-- Descending comparison on pay_increase, the sort key of the final step. -/
def candGE (a b : Candidate) : Prop := b.pay_increase ≤ a.pay_increase

instance : DecidableRel candGE := fun _ _ => inferInstanceAs (Decidable (_ ≤ _))

instance : IsTotal Candidate candGE :=
  ⟨fun a b => (le_total a.pay_increase b.pay_increase).symm⟩

instance : IsTrans Candidate candGE :=
  ⟨fun _ _ _ hab hbc => le_trans hbc hab⟩

/-- Embedding of `compute_skill_transfer_options`: validate the specialty,
filter the overlap table case-insensitively, filter the pay table by exact
experience-group and state keys, join, drop rows with no benchmark, keep
strictly positive pay increases, then sort descending by pay increase and
return the first five rows. -/
def compute_skill_transfer_options (specialty : Option String) (user_base_pay : Option ℚ)
    (years_of_experience_group state : String)
    (skills_df : List OverlapRow) (avg_pay_df : List PayRow) :
    Option ErrReason × List Candidate :=
  if specialtyMissing specialty then (some .missingSpecialty, [])
  else
    let sp := specialty.getD ""
    if (overlapsOf sp skills_df).isEmpty then (some .noOverlapData, [])
    else
      let surv := survivorsOf sp user_base_pay years_of_experience_group state skills_df avg_pay_df
      if surv.isEmpty then (some .noPositiveTransfer, [])
      else (none, (surv.insertionSort candGE).take 5)

/-- Apostrophe, used only to build concrete sample strings. -/
def sq : Char := Char.ofNat 39

/-- The bracketed text from the shared_skill_names column of the data. -/
def sampleRaw : String :=
  String.mk (['[', sq] ++ "IV therapy".data ++ [sq, ',', ' ', sq] ++ "wound care".data ++ [sq, ']'])

/-- A concrete overlap row used to instantiate the theorems. -/
def sampleOverlapRow : OverlapRow :=
  { specialty_1 := "ICU", specialty_2 := "ER", shared_skill_names := .str sampleRaw,
    avg_importance := 3, overlap_percentage := 40 }

/-- A second concrete overlap row with a non-string skill cell. -/
def sampleOverlapRow2 : OverlapRow :=
  { specialty_1 := "ICU", specialty_2 := "Cath Lab", shared_skill_names := .nonString,
    avg_importance := 2, overlap_percentage := 30 }

/-- A concrete pay benchmark row used to instantiate the theorems. -/
def samplePayRow : PayRow :=
  { specialty := "ER", avg_base_pay := some 55,
    total_years_of_experience_group := "5-10", state := "TX" }

/-- A second concrete pay benchmark row. -/
def samplePayRow2 : PayRow :=
  { specialty := "Cath Lab", avg_base_pay := some 60,
    total_years_of_experience_group := "5-10", state := "TX" }

/-- An overlap row with its shared skill cell replaced by `g r`; quantifying
over `g` quantifies over arbitrary corruption of that cell. -/
def withShared (g : OverlapRow → SkillField) (r : OverlapRow) : OverlapRow :=
  { r with shared_skill_names := g r }

theorem splitComma_ne_nil (l : List Char) : splitComma l ≠ [] := by
  induction l with
  | nil => simp [splitComma]
  | cons c cs ih =>
    rw [splitComma]
    by_cases hc : c == ','
    · simp [hc]
    · simp only [hc, Bool.false_eq_true, if_false]
      cases h : splitComma cs <;> simp

theorem mem_of_mem_splitComma {a : Char} {c l : List Char}
    (hc : c ∈ splitComma l) (ha : a ∈ c) : a ∈ l := by
  induction l generalizing c with
  | nil =>
    simp [splitComma] at hc
    subst hc
    exact absurd ha (List.not_mem_nil a)
  | cons x xs ih =>
    rw [splitComma] at hc
    by_cases hx : x == ','
    · simp only [hx, if_true] at hc
      rcases List.mem_cons.mp hc with rfl | hc'
      · exact absurd ha (List.not_mem_nil a)
      · exact List.mem_cons_of_mem x (ih hc' ha)
    · simp only [hx, Bool.false_eq_true, if_false] at hc
      rcases hsp : splitComma xs with _ | ⟨t, ts⟩
      · exact absurd hsp (splitComma_ne_nil xs)
      · rw [hsp] at hc
        rcases List.mem_cons.mp hc with rfl | hc'
        · rcases List.mem_cons.mp ha with rfl | ha'
          · exact List.mem_cons_self a xs
          · exact List.mem_cons_of_mem x (ih (hsp ▸ List.mem_cons_self t ts) ha')
        · exact List.mem_cons_of_mem x (ih (hsp ▸ List.mem_cons_of_mem t hc') ha)

theorem mem_of_mem_dropWhileEnd {p : Char → Bool} {a : Char} {l : List Char}
    (h : a ∈ dropWhileEnd p l) : a ∈ l := by
  induction l with
  | nil => simp [dropWhileEnd] at h
  | cons x xs ih =>
    rw [dropWhileEnd] at h
    by_cases hc : (dropWhileEnd p xs).isEmpty && p x
    · simp [hc] at h
    · simp only [hc, Bool.false_eq_true, if_false] at h
      rcases List.mem_cons.mp h with rfl | h'
      · exact List.mem_cons_self a xs
      · exact List.mem_cons_of_mem x (ih h')

theorem dropWhile_dropWhile (p : Char → Bool) (l : List Char) :
    (l.dropWhile p).dropWhile p = l.dropWhile p := by
  induction l with
  | nil => simp
  | cons x xs ih =>
    rw [List.dropWhile_cons]
    by_cases hx : p x
    · simpa [hx] using ih
    · simp [List.dropWhile_cons, hx]

theorem dropWhile_dropWhileEnd (p : Char → Bool) {l : List Char}
    (h : l.dropWhile p = l) : (dropWhileEnd p l).dropWhile p = dropWhileEnd p l := by
  cases l with
  | nil => simp [dropWhileEnd]
  | cons x xs =>
    have hx : p x = false := by
      by_contra hx
      have hx' : p x = true := by revert hx; cases p x <;> simp
      rw [List.dropWhile_cons, if_pos hx'] at h
      have hsub := (List.dropWhile_sublist (l := xs) p).length_le
      rw [h] at hsub
      simp at hsub
    rw [dropWhileEnd]
    by_cases hc : (dropWhileEnd p xs).isEmpty && p x
    · simp [hc]
    · simp only [hc, Bool.false_eq_true, if_false]
      rw [List.dropWhile_cons, hx]
      simp

theorem dropWhileEnd_dropWhileEnd (p : Char → Bool) (l : List Char) :
    dropWhileEnd p (dropWhileEnd p l) = dropWhileEnd p l := by
  induction l with
  | nil => simp [dropWhileEnd]
  | cons x xs ih =>
    rw [dropWhileEnd]
    by_cases hc : (dropWhileEnd p xs).isEmpty && p x
    · simp [hc, dropWhileEnd]
    · simp only [hc, Bool.false_eq_true, if_false]
      rw [dropWhileEnd, ih]
      simp only [hc, Bool.false_eq_true, if_false]

theorem stripChars_mem {p : Char → Bool} {a : Char} {l : List Char}
    (h : a ∈ stripChars p l) : a ∈ l :=
  (List.dropWhile_sublist p).mem (mem_of_mem_dropWhileEnd h)

theorem stripChars_dropWhile (p : Char → Bool) (l : List Char) :
    (stripChars p l).dropWhile p = stripChars p l :=
  dropWhile_dropWhileEnd p (dropWhile_dropWhile p l)

theorem stripChars_dropWhileEnd (p : Char → Bool) (l : List Char) :
    dropWhileEnd p (stripChars p l) = stripChars p l :=
  dropWhileEnd_dropWhileEnd p (l.dropWhile p)

/-- Every string produced by the skill parser is non-empty, contains no quote
character, and carries no leading and no trailing whitespace. -/
theorem safe_parse_skills_mem {x : SkillField} {t : String}
    (ht : t ∈ safe_parse_skills x) :
    t.data ≠ [] ∧ (∀ ch ∈ t.data, isQuote ch = false) ∧
    t.data.dropWhile pyIsSpace = t.data ∧ dropWhileEnd pyIsSpace t.data = t.data := by
  cases x with
  | nonString => simp [safe_parse_skills] at ht
  | str s =>
    rw [safe_parse_skills] at ht
    by_cases hcl : ((stripChars isBracket s.data).filter (fun c => !isQuote c)).isEmpty
    · simp [hcl] at ht
    · simp only [hcl, Bool.false_eq_true, if_false] at ht
      obtain ⟨tok, htok, hmk⟩ := List.mem_map.mp ht
      obtain ⟨htok', hne⟩ := List.mem_filter.mp htok
      obtain ⟨chunk, hchunk, hstrip⟩ := List.mem_map.mp htok'
      have hdata : t.data = tok := by rw [← hmk]
      refine ⟨?_, ?_, ?_, ?_⟩
      · rw [hdata]
        intro hnil
        rw [hnil] at hne
        simp at hne
      · intro ch hch
        rw [hdata, ← hstrip] at hch
        have h1 : ch ∈ chunk := stripChars_mem hch
        have h2 : ch ∈ (stripChars isBracket s.data).filter (fun c => !isQuote c) :=
          mem_of_mem_splitComma hchunk h1
        have := (List.mem_filter.mp h2).2
        revert this
        cases isQuote ch <;> simp
      · rw [hdata, ← hstrip]
        exact stripChars_dropWhile pyIsSpace chunk
      · rw [hdata, ← hstrip]
        exact stripChars_dropWhileEnd pyIsSpace chunk

theorem compute_of_missing {specialty : Option String} (bp : Option ℚ) (eg st : String)
    (sk : List OverlapRow) (av : List PayRow) (h : specialtyMissing specialty = true) :
    compute_skill_transfer_options specialty bp eg st sk av = (some .missingSpecialty, []) := by
  simp [compute_skill_transfer_options, h]

theorem compute_of_noOverlap {s : String} (bp : Option ℚ) (eg st : String)
    (sk : List OverlapRow) (av : List PayRow) (hs : s ≠ "") (ho : overlapsOf s sk = []) :
    compute_skill_transfer_options (some s) bp eg st sk av = (some .noOverlapData, []) := by
  simp [compute_skill_transfer_options, specialtyMissing, hs, ho]

theorem compute_of_noPositive {s : String} {bp : Option ℚ} {eg st : String}
    {sk : List OverlapRow} {av : List PayRow} (hs : s ≠ "") (ho : overlapsOf s sk ≠ [])
    (hv : survivorsOf s bp eg st sk av = []) :
    compute_skill_transfer_options (some s) bp eg st sk av = (some .noPositiveTransfer, []) := by
  simp [compute_skill_transfer_options, specialtyMissing, hs, ho, hv]

theorem compute_of_success {s : String} {bp : Option ℚ} {eg st : String}
    {sk : List OverlapRow} {av : List PayRow} (hs : s ≠ "") (ho : overlapsOf s sk ≠ [])
    (hv : survivorsOf s bp eg st sk av ≠ []) :
    compute_skill_transfer_options (some s) bp eg st sk av =
      (none, ((survivorsOf s bp eg st sk av).insertionSort candGE).take 5) := by
  simp [compute_skill_transfer_options, specialtyMissing, hs, ho, hv]

/-- Inversion of a successful call: the specialty was a non-empty string, the
overlap filter and the survivor list were non-empty, and the result is the
first five rows of the descending sort of the survivors. -/
theorem compute_none_inv {specialty : Option String} {bp : Option ℚ} {eg st : String}
    {sk : List OverlapRow} {av : List PayRow} {cands : List Candidate}
    (h : compute_skill_transfer_options specialty bp eg st sk av = (none, cands)) :
    ∃ s, specialty = some s ∧ s ≠ "" ∧ overlapsOf s sk ≠ [] ∧
      survivorsOf s bp eg st sk av ≠ [] ∧
      cands = ((survivorsOf s bp eg st sk av).insertionSort candGE).take 5 := by
  cases specialty with
  | none =>
    rw [@compute_of_missing none bp eg st sk av rfl] at h
    simp at h
  | some s =>
    by_cases hs : s = ""
    · subst hs
      rw [@compute_of_missing (some "") bp eg st sk av (by decide)] at h
      simp at h
    · by_cases ho : overlapsOf s sk = []
      · rw [compute_of_noOverlap bp eg st sk av hs ho] at h
        simp at h
      · by_cases hv : survivorsOf s bp eg st sk av = []
        · rw [compute_of_noPositive hs ho hv] at h
          simp at h
        · rw [compute_of_success hs ho hv] at h
          simp only [Prod.mk.injEq, true_and] at h
          exact ⟨s, rfl, hs, ho, hv, h.symm⟩

/-- Membership in the merged list: the overlap part matched the query
specialty, the pay part passed the exact-key filter, the join key agrees, and
the benchmark average base pay is present. -/
theorem mem_mergedOf {x : OverlapRow × PayRow × ℚ} {sp eg st : String}
    {sk : List OverlapRow} {av : List PayRow} (h : x ∈ mergedOf sp eg st sk av) :
    x.1 ∈ overlapsOf sp sk ∧ x.2.1 ∈ avgFilteredOf eg st av ∧
      x.2.1.specialty = x.1.specialty_2 ∧ x.2.1.avg_base_pay = some x.2.2 := by
  simp only [mergedOf, List.mem_flatMap, List.mem_filterMap, List.mem_filter] at h
  obtain ⟨o, ho, p, ⟨hp, hps⟩, hmap⟩ := h
  cases hab : p.avg_base_pay with
  | none => rw [hab] at hmap; simp at hmap
  | some ab =>
    rw [hab] at hmap
    simp only [Option.map_some'] at hmap
    rw [Option.some.injEq] at hmap
    subst hmap
    exact ⟨ho, hp, by simpa using hps, hab⟩

/-- Membership in the survivor list: the base pay was present, the merged
row's pay increase is strictly positive, and the candidate is the shaped row. -/
theorem mem_survivorsOf {c : Candidate} {sp : String} {bp : Option ℚ} {eg st : String}
    {sk : List OverlapRow} {av : List PayRow} (h : c ∈ survivorsOf sp bp eg st sk av) :
    ∃ x ∈ mergedOf sp eg st sk av, ∃ b, bp = some b ∧ 0 < x.2.2 - b ∧
      c = mkCandidate x.1 x.2.1 x.2.2 (x.2.2 - b) := by
  cases bp with
  | none => simp [survivorsOf] at h
  | some b =>
    simp only [survivorsOf, List.mem_filterMap] at h
    obtain ⟨x, hx, hfx⟩ := h
    by_cases hpos : 0 < x.2.2 - b
    · rw [if_pos hpos, Option.some.injEq] at hfx
      exact ⟨x, hx, b, rfl, hpos, hfx.symm⟩
    · rw [if_neg hpos] at hfx
      simp at hfx

/-- With a null base pay nothing passes the positive-increase filter. -/
theorem survivorsOf_none (sp eg st : String) (sk : List OverlapRow) (av : List PayRow) :
    survivorsOf sp none eg st sk av = [] := by
  simp [survivorsOf]

theorem overlapsOf_eq_nil_iff {s : String} {sk : List OverlapRow} :
    overlapsOf s sk = [] ↔ ∀ r ∈ sk, pyLower r.specialty_1 ≠ pyLower s := by
  simp [overlapsOf, List.filter_eq_nil_iff]

theorem overlapsOf_ne_nil_iff {s : String} {sk : List OverlapRow} :
    overlapsOf s sk ≠ [] ↔ ∃ r ∈ sk, pyLower r.specialty_1 = pyLower s := by
  rw [ne_eq, overlapsOf_eq_nil_iff]
  push_neg
  rfl

/-- In a pairwise-related list, every element kept by `take n` is related to
every element of the matching `drop n`. -/
theorem pairwise_take_drop {α : Type} {r : α → α → Prop} :
    ∀ (l : List α) (n : ℕ), l.Pairwise r → ∀ a ∈ l.take n, ∀ b ∈ l.drop n, r a b := by
  intro l
  induction l with
  | nil => simp
  | cons x xs ih =>
    intro n hp a ha b hb
    cases n with
    | zero => simp at ha
    | succ m =>
      rw [List.take_succ_cons] at ha
      rw [List.drop_succ_cons] at hb
      rcases List.mem_cons.mp ha with rfl | ha'
      · exact (List.pairwise_cons.mp hp).1 b (List.drop_subset m xs hb)
      · exact ih m (List.pairwise_cons.mp hp).2 a ha' b hb

/-- C1: whenever compute_skill_transfer_options succeeds (null error), every
candidate in the returned list has a strictly positive pay_increase, and that
pay_increase equals the target's avg_base_pay minus the profile's base pay;
candidates with zero or negative increase never appear. -/
theorem C1_only_upward_moves (specialty : Option String) (bp : Option ℚ) (eg st : String)
    (sk : List OverlapRow) (av : List PayRow) (cands : List Candidate)
    (h : compute_skill_transfer_options specialty bp eg st sk av = (none, cands)) :
    ∀ c ∈ cands, 0 < c.pay_increase ∧ ∃ b, bp = some b ∧ c.pay_increase = c.avg_base_pay - b := by
  obtain ⟨s, -, -, -, -, hc⟩ := compute_none_inv h
  subst hc
  intro c hcmem
  have hsurv : c ∈ survivorsOf s bp eg st sk av := by
    have hmem := List.mem_of_mem_take hcmem
    rwa [List.mem_insertionSort] at hmem
  obtain ⟨x, _, b, hb, hpos, hceq⟩ := mem_survivorsOf hsurv
  subst hceq
  exact ⟨hpos, b, hb, rfl⟩

/-- Witness for C1 at a concrete profile and tables. -/
theorem C1_only_upward_moves_witness :
    compute_skill_transfer_options (some "icu") (some 45) "5-10" "TX"
      [sampleOverlapRow, sampleOverlapRow2] [samplePayRow, samplePayRow2]
      = (none, (compute_skill_transfer_options (some "icu") (some 45) "5-10" "TX"
          [sampleOverlapRow, sampleOverlapRow2] [samplePayRow, samplePayRow2]).2) ∧
    ∀ c ∈ (compute_skill_transfer_options (some "icu") (some 45) "5-10" "TX"
        [sampleOverlapRow, sampleOverlapRow2] [samplePayRow, samplePayRow2]).2,
      0 < c.pay_increase ∧ ∃ b, (some (45 : ℚ)) = some b ∧
        c.pay_increase = c.avg_base_pay - b :=
  ⟨by with_unfolding_all rfl,
   C1_only_upward_moves (some "icu") (some 45) "5-10" "TX"
     [sampleOverlapRow, sampleOverlapRow2] [samplePayRow, samplePayRow2] _
     (by with_unfolding_all rfl)⟩

/-- C4: the engine is deterministic — structurally identical inputs give
structurally identical outputs (same error and same ordered candidate list). -/
theorem C4_deterministic (sp1 sp2 : Option String) (bp1 bp2 : Option ℚ)
    (eg1 eg2 st1 st2 : String) (sk1 sk2 : List OverlapRow) (av1 av2 : List PayRow)
    (hsp : sp1 = sp2) (hbp : bp1 = bp2) (heg : eg1 = eg2) (hst : st1 = st2)
    (hsk : sk1 = sk2) (hav : av1 = av2) :
    compute_skill_transfer_options sp1 bp1 eg1 st1 sk1 av1
      = compute_skill_transfer_options sp2 bp2 eg2 st2 sk2 av2 := by
  subst hsp hbp heg hst hsk hav
  rfl

/-- Witness for C4 at a concrete input. -/
theorem C4_deterministic_witness :
    (some "ICU" : Option String) = some "ICU" ∧
    compute_skill_transfer_options (some "ICU") (some 45) "5-10" "TX"
        [sampleOverlapRow] [samplePayRow]
      = compute_skill_transfer_options (some "ICU") (some 45) "5-10" "TX"
        [sampleOverlapRow] [samplePayRow] :=
  ⟨rfl, C4_deterministic (some "ICU") (some "ICU") (some 45) (some 45) "5-10" "5-10"
    "TX" "TX" [sampleOverlapRow] [sampleOverlapRow] [samplePayRow] [samplePayRow]
    rfl rfl rfl rfl rfl rfl⟩

/-- Counterexample to C8: with a null basePay but a valid specialty, matching
overlap data and a matching benchmark, the function does not fail with a
dedicated missing-pay error; it proceeds into the pay-delta computation and
returns the no-positive-transfer error (the source has no missing-pay check
and no missing-pay message at all). -/
theorem C8_counterexample :
    compute_skill_transfer_options (some "ICU") none "5-10" "TX"
      [sampleOverlapRow] [samplePayRow] = (some .noPositiveTransfer, []) := by
  with_unfolding_all decide

/-- C8 amended: a null basePay is not rejected up front; the function
proceeds, every pay comparison against the null baseline fails, so whenever
the specialty is valid and overlap rows match, the call fails with the
no-positive-transfer error and an empty list. -/
theorem C8_null_base_pay (sp : String) (eg st : String)
    (sk : List OverlapRow) (av : List PayRow)
    (hs : sp ≠ "") (ho : overlapsOf sp sk ≠ []) :
    compute_skill_transfer_options (some sp) none eg st sk av
      = (some .noPositiveTransfer, []) :=
  compute_of_noPositive hs ho (survivorsOf_none sp eg st sk av)

/-- Witness for the amended C8 at a concrete input. -/
theorem C8_null_base_pay_witness :
    ("ICU" ≠ "" ∧ overlapsOf "ICU" [sampleOverlapRow] ≠ []) ∧
    compute_skill_transfer_options (some "ICU") none "5-10" "TX"
      [sampleOverlapRow] [samplePayRow] = (some .noPositiveTransfer, []) :=
  ⟨⟨by decide, by decide⟩,
   C8_null_base_pay "ICU" "5-10" "TX" [sampleOverlapRow] [samplePayRow]
     (by decide) (by decide)⟩

/-- C9: exactly one side of the result is populated — the error is null if
and only if the candidate list is non-empty. -/
theorem C9_error_iff_empty (specialty : Option String) (bp : Option ℚ) (eg st : String)
    (sk : List OverlapRow) (av : List PayRow) :
    (compute_skill_transfer_options specialty bp eg st sk av).1 = none ↔
      (compute_skill_transfer_options specialty bp eg st sk av).2 ≠ [] := by
  cases specialty with
  | none =>
    rw [@compute_of_missing none bp eg st sk av rfl]
    simp
  | some s =>
    by_cases hs : s = ""
    · subst hs
      rw [@compute_of_missing (some "") bp eg st sk av (by decide)]
      simp
    · by_cases ho : overlapsOf s sk = []
      · rw [compute_of_noOverlap bp eg st sk av hs ho]
        simp
      · by_cases hv : survivorsOf s bp eg st sk av = []
        · rw [compute_of_noPositive hs ho hv]
          simp
        · rw [compute_of_success hs ho hv]
          simp only [ne_eq, true_iff]
          intro hnil
          have hlen := congrArg List.length hnil
          rw [List.length_take, List.length_insertionSort] at hlen
          have hpos : 0 < (survivorsOf s bp eg st sk av).length := List.length_pos.mpr hv
          simp only [List.length_nil] at hlen
          omega

theorem pyLower_eq_empty_iff (s : String) : pyLower s = "" ↔ s = "" := by
  cases s with
  | mk data =>
    constructor
    · intro h
      have hd := congrArg String.data h
      simp only [pyLower] at hd
      rw [List.map_eq_nil_iff] at hd
      rw [hd]
    · intro h
      rw [h]
      rfl

/-- Every call either fails with some error and an empty list, or succeeds
with the first five rows of the descending sort of the survivors. -/
theorem compute_result_shape (specialty : Option String) (bp : Option ℚ) (eg st : String)
    (sk : List OverlapRow) (av : List PayRow) :
    (∃ e, compute_skill_transfer_options specialty bp eg st sk av = (some e, [])) ∨
    (∃ s, specialty = some s ∧
      compute_skill_transfer_options specialty bp eg st sk av
        = (none, ((survivorsOf s bp eg st sk av).insertionSort candGE).take 5)) := by
  cases specialty with
  | none => exact Or.inl ⟨.missingSpecialty, @compute_of_missing none bp eg st sk av rfl⟩
  | some s =>
    by_cases hs : s = ""
    · subst hs
      exact Or.inl ⟨.missingSpecialty, @compute_of_missing (some "") bp eg st sk av (by decide)⟩
    · by_cases ho : overlapsOf s sk = []
      · exact Or.inl ⟨.noOverlapData, compute_of_noOverlap bp eg st sk av hs ho⟩
      · by_cases hv : survivorsOf s bp eg st sk av = []
        · exact Or.inl ⟨.noPositiveTransfer, compute_of_noPositive hs ho hv⟩
        · exact Or.inr ⟨s, rfl, compute_of_success hs ho hv⟩

/-- C2: a successful result has at most 5 entries, adjacent entries are in
descending pay_increase order, and the kept entries together with the dropped
remainder form the surviving candidate multiset with every dropped entry
paying no more than every kept one — the result is the 5 largest. -/
theorem C2_top5_descending (s : String) (bp : Option ℚ) (eg st : String)
    (sk : List OverlapRow) (av : List PayRow) (cands : List Candidate)
    (h : compute_skill_transfer_options (some s) bp eg st sk av = (none, cands)) :
    cands.length ≤ 5 ∧
    List.Chain' (fun a b => b.pay_increase ≤ a.pay_increase) cands ∧
    ∃ rest, (cands ++ rest).Perm (survivorsOf s bp eg st sk av) ∧
      ∀ x ∈ rest, ∀ y ∈ cands, x.pay_increase ≤ y.pay_increase := by
  obtain ⟨s', hseq, -, -, -, hc⟩ := compute_none_inv h
  injection hseq with hseq'
  subst hseq'
  subst hc
  have hsorted : ((survivorsOf s bp eg st sk av).insertionSort candGE).Pairwise candGE :=
    List.sorted_insertionSort candGE _
  refine ⟨List.length_take_le 5 _, hsorted.take.chain',
    ((survivorsOf s bp eg st sk av).insertionSort candGE).drop 5, ?_, ?_⟩
  · rw [List.take_append_drop]
    exact List.perm_insertionSort candGE _
  · intro x hx y hy
    exact pairwise_take_drop _ 5 hsorted y hy x hx

/-- Witness for C2 at a concrete profile with two surviving candidates. -/
theorem C2_top5_descending_witness :
    compute_skill_transfer_options (some "icu") (some 45) "5-10" "TX"
      [sampleOverlapRow, sampleOverlapRow2] [samplePayRow, samplePayRow2]
      = (none, (compute_skill_transfer_options (some "icu") (some 45) "5-10" "TX"
          [sampleOverlapRow, sampleOverlapRow2] [samplePayRow, samplePayRow2]).2) ∧
    ((compute_skill_transfer_options (some "icu") (some 45) "5-10" "TX"
        [sampleOverlapRow, sampleOverlapRow2] [samplePayRow, samplePayRow2]).2.length ≤ 5 ∧
      List.Chain' (fun a b => b.pay_increase ≤ a.pay_increase)
        (compute_skill_transfer_options (some "icu") (some 45) "5-10" "TX"
          [sampleOverlapRow, sampleOverlapRow2] [samplePayRow, samplePayRow2]).2 ∧
      ∃ rest,
        ((compute_skill_transfer_options (some "icu") (some 45) "5-10" "TX"
            [sampleOverlapRow, sampleOverlapRow2] [samplePayRow, samplePayRow2]).2 ++ rest).Perm
          (survivorsOf "icu" (some 45) "5-10" "TX"
            [sampleOverlapRow, sampleOverlapRow2] [samplePayRow, samplePayRow2]) ∧
        ∀ x ∈ rest, ∀ y ∈ (compute_skill_transfer_options (some "icu") (some 45) "5-10" "TX"
            [sampleOverlapRow, sampleOverlapRow2] [samplePayRow, samplePayRow2]).2,
          x.pay_increase ≤ y.pay_increase) :=
  ⟨by with_unfolding_all rfl,
   C2_top5_descending "icu" (some 45) "5-10" "TX"
     [sampleOverlapRow, sampleOverlapRow2] [samplePayRow, samplePayRow2] _
     (by with_unfolding_all rfl)⟩

/-- C3: the error taxonomy — a null specialty and the empty-string specialty
give the missing-specialty error; otherwise the no-overlap-data error is
returned iff no overlap row matches the query specialty case-insensitively;
otherwise the no-positive-transfer error is returned iff no candidate
survives the benchmark join and the positive-increase filter; otherwise the
error is null; and the three error signals are pairwise distinct. -/
theorem C3_error_taxonomy (s : String) (bp : Option ℚ) (eg st : String)
    (sk : List OverlapRow) (av : List PayRow) :
    compute_skill_transfer_options none bp eg st sk av = (some .missingSpecialty, []) ∧
    ((compute_skill_transfer_options (some s) bp eg st sk av).1 = some .missingSpecialty ↔
      s = "") ∧
    ((compute_skill_transfer_options (some s) bp eg st sk av).1 = some .noOverlapData ↔
      (s ≠ "" ∧ ∀ r ∈ sk, pyLower r.specialty_1 ≠ pyLower s)) ∧
    ((compute_skill_transfer_options (some s) bp eg st sk av).1 = some .noPositiveTransfer ↔
      (s ≠ "" ∧ (∃ r ∈ sk, pyLower r.specialty_1 = pyLower s) ∧
        survivorsOf s bp eg st sk av = [])) ∧
    ((compute_skill_transfer_options (some s) bp eg st sk av).1 = none ↔
      (s ≠ "" ∧ (∃ r ∈ sk, pyLower r.specialty_1 = pyLower s) ∧
        survivorsOf s bp eg st sk av ≠ [])) ∧
    (ErrReason.missingSpecialty ≠ ErrReason.noOverlapData ∧
      ErrReason.missingSpecialty ≠ ErrReason.noPositiveTransfer ∧
      ErrReason.noOverlapData ≠ ErrReason.noPositiveTransfer) := by
  refine ⟨@compute_of_missing none bp eg st sk av rfl, ?_⟩
  by_cases hs : s = ""
  · subst hs
    rw [@compute_of_missing (some "") bp eg st sk av (by decide)]
    simp
  · rw [← overlapsOf_eq_nil_iff, ← overlapsOf_ne_nil_iff]
    by_cases ho : overlapsOf s sk = []
    · rw [compute_of_noOverlap bp eg st sk av hs ho]
      simp [hs, ho]
    · by_cases hv : survivorsOf s bp eg st sk av = []
      · rw [compute_of_noPositive hs ho hv]
        simp [hs, ho, hv]
      · rw [compute_of_success hs ho hv]
        simp [hs, ho, hv]

/-- C5: the specialty lookup is case-insensitive — two query strings that
agree after lower-casing give the same error and the same candidate list. -/
theorem C5_case_insensitive (s1 s2 : String) (h : pyLower s1 = pyLower s2)
    (bp : Option ℚ) (eg st : String) (sk : List OverlapRow) (av : List PayRow) :
    compute_skill_transfer_options (some s1) bp eg st sk av
      = compute_skill_transfer_options (some s2) bp eg st sk av := by
  have he : s1 = "" ↔ s2 = "" := by
    rw [← pyLower_eq_empty_iff s1, ← pyLower_eq_empty_iff s2, h]
  have hov : overlapsOf s1 sk = overlapsOf s2 sk := by
    unfold overlapsOf
    rw [h]
  have hsv : survivorsOf s1 bp eg st sk av = survivorsOf s2 bp eg st sk av := by
    unfold survivorsOf mergedOf
    rw [hov]
  by_cases hs : s1 = ""
  · have hs2 := he.mp hs
    subst hs
    subst hs2
    rfl
  · have hs2 : s2 ≠ "" := fun hh => hs (he.mpr hh)
    by_cases ho : overlapsOf s1 sk = []
    · rw [compute_of_noOverlap bp eg st sk av hs ho,
        compute_of_noOverlap bp eg st sk av hs2 (hov ▸ ho)]
    · have ho2 : overlapsOf s2 sk ≠ [] := hov ▸ ho
      by_cases hv : survivorsOf s1 bp eg st sk av = []
      · rw [compute_of_noPositive hs ho hv, compute_of_noPositive hs2 ho2 (hsv ▸ hv)]
      · rw [compute_of_success hs ho hv, compute_of_success hs2 ho2 (hsv ▸ hv), hsv]

/-- Witness for C5 on the queries ICU and icu. -/
theorem C5_case_insensitive_witness :
    pyLower "ICU" = pyLower "icu" ∧
    compute_skill_transfer_options (some "ICU") (some 45) "5-10" "TX"
        [sampleOverlapRow] [samplePayRow]
      = compute_skill_transfer_options (some "icu") (some 45) "5-10" "TX"
        [sampleOverlapRow] [samplePayRow] :=
  ⟨rfl, C5_case_insensitive "ICU" "icu" rfl (some 45) "5-10" "TX"
    [sampleOverlapRow] [samplePayRow]⟩

/-- C7: benchmark rows are selected only by exact equality of both the
experience group and the state with the query keys, and an overlap target
with no benchmark row in that selection never appears in the result — it is
dropped silently rather than raising an error. -/
theorem C7_exact_keys_silent_drop (eg st : String) (av : List PayRow) (tgt : String)
    (specialty : Option String) (bp : Option ℚ) (sk : List OverlapRow)
    (hnb : ∀ p ∈ avgFilteredOf eg st av, p.specialty ≠ tgt) :
    (∀ p, p ∈ avgFilteredOf eg st av ↔
      (p ∈ av ∧ p.total_years_of_experience_group = eg ∧ p.state = st)) ∧
    ∀ c ∈ (compute_skill_transfer_options specialty bp eg st sk av).2,
      c.specialty_2 ≠ tgt := by
  constructor
  · intro p
    simp [avgFilteredOf, List.mem_filter, and_assoc]
  · intro c hc
    rcases compute_result_shape specialty bp eg st sk av with ⟨e, heq⟩ | ⟨s, -, heq⟩
    · rw [heq] at hc
      simp at hc
    · rw [heq] at hc
      have hc' : c ∈ survivorsOf s bp eg st sk av := by
        have hmem := List.mem_of_mem_take hc
        rwa [List.mem_insertionSort] at hmem
      obtain ⟨x, hx, b, -, -, hceq⟩ := mem_survivorsOf hc'
      obtain ⟨-, hpmem, hpspec, -⟩ := mem_mergedOf hx
      subst hceq
      intro hcon
      exact hnb x.2.1 hpmem (hpspec.trans hcon)

/-- Witness for C7 at concrete keys, tables and target. -/
theorem C7_exact_keys_silent_drop_witness :
    (∀ p ∈ avgFilteredOf "5-10" "TX" [samplePayRow], p.specialty ≠ "Cath Lab") ∧
    ((∀ p, p ∈ avgFilteredOf "5-10" "TX" [samplePayRow] ↔
      (p ∈ [samplePayRow] ∧ p.total_years_of_experience_group = "5-10" ∧ p.state = "TX")) ∧
    ∀ c ∈ (compute_skill_transfer_options (some "ICU") (some 45) "5-10" "TX"
        [sampleOverlapRow, sampleOverlapRow2] [samplePayRow]).2,
      c.specialty_2 ≠ "Cath Lab") :=
  ⟨by with_unfolding_all decide,
   C7_exact_keys_silent_drop "5-10" "TX" [samplePayRow] "Cath Lab" (some "ICU") (some 45)
     [sampleOverlapRow, sampleOverlapRow2] (by with_unfolding_all decide)⟩

theorem flatMap_congr_fun {α β : Type} {l : List α} {f h : α → List β}
    (hfh : ∀ a ∈ l, f a = h a) : l.flatMap f = l.flatMap h := by
  induction l with
  | nil => rfl
  | cons x xs ih =>
    rw [List.flatMap_cons, List.flatMap_cons, hfh x (List.mem_cons_self x xs),
      ih (fun a ha => hfh a (List.mem_cons_of_mem x ha))]

theorem overlapsOf_withShared (g : OverlapRow → SkillField) (sp : String)
    (sk : List OverlapRow) :
    overlapsOf sp (sk.map (withShared g)) = (overlapsOf sp sk).map (withShared g) := by
  unfold overlapsOf
  rw [List.filter_map]
  congr 1

theorem mergedOf_withShared (g : OverlapRow → SkillField) (sp eg st : String)
    (sk : List OverlapRow) (av : List PayRow) :
    mergedOf sp eg st (sk.map (withShared g)) av
      = (mergedOf sp eg st sk av).map (fun x => (withShared g x.1, x.2)) := by
  unfold mergedOf
  rw [overlapsOf_withShared, List.flatMap_map, List.map_flatMap]
  apply flatMap_congr_fun
  intro o ho
  rw [List.map_filterMap]
  simp only [Option.map_map]
  rfl

theorem survivorsOf_withShared_eq_nil (g : OverlapRow → SkillField) (sp : String)
    (bp : Option ℚ) (eg st : String) (sk : List OverlapRow) (av : List PayRow) :
    survivorsOf sp bp eg st (sk.map (withShared g)) av = [] ↔
      survivorsOf sp bp eg st sk av = [] := by
  cases bp with
  | none => simp [survivorsOf]
  | some b =>
    simp only [survivorsOf]
    rw [mergedOf_withShared, List.filterMap_map, List.filterMap_eq_nil_iff,
      List.filterMap_eq_nil_iff]
    constructor <;> intro hall x hx <;> have h2 := hall x hx <;> revert h2 <;>
      by_cases hp : b < x.2.2 <;> simp [hp]

/-- C6: the error component of the result does not depend on the
shared_skill_names cells at all — corrupting every such cell in the overlap
table (with `g` arbitrary) leaves the error unchanged, so a malformed cell
never escalates to a caller-visible failure; a non-string cell parses to the
empty list; and the bracketed sample text parses to its two skill names. -/
theorem C6_parse_never_fatal (g : OverlapRow → SkillField) (specialty : Option String)
    (bp : Option ℚ) (eg st : String) (sk : List OverlapRow) (av : List PayRow) :
    (compute_skill_transfer_options specialty bp eg st (sk.map (withShared g)) av).1
      = (compute_skill_transfer_options specialty bp eg st sk av).1 ∧
    safe_parse_skills SkillField.nonString = [] ∧
    safe_parse_skills (.str sampleRaw) = ["IV therapy", "wound care"] := by
  refine ⟨?_, rfl, by decide⟩
  cases specialty with
  | none =>
    rw [@compute_of_missing none bp eg st (sk.map (withShared g)) av rfl,
      @compute_of_missing none bp eg st sk av rfl]
  | some s =>
    by_cases hs : s = ""
    · subst hs
      rw [@compute_of_missing (some "") bp eg st (sk.map (withShared g)) av (by decide),
        @compute_of_missing (some "") bp eg st sk av (by decide)]
    · by_cases ho : overlapsOf s sk = []
      · have ho' : overlapsOf s (sk.map (withShared g)) = [] := by
          rw [overlapsOf_withShared, ho]
          rfl
        rw [compute_of_noOverlap bp eg st (sk.map (withShared g)) av hs ho',
          compute_of_noOverlap bp eg st sk av hs ho]
      · have ho' : overlapsOf s (sk.map (withShared g)) ≠ [] := by
          rw [overlapsOf_withShared]
          exact fun hh => ho (List.map_eq_nil_iff.mp hh)
        by_cases hv : survivorsOf s bp eg st sk av = []
        · have hv' := (survivorsOf_withShared_eq_nil g s bp eg st sk av).mpr hv
          rw [compute_of_noPositive hs ho' hv', compute_of_noPositive hs ho hv]
        · have hv' : survivorsOf s bp eg st (sk.map (withShared g)) av ≠ [] :=
            fun hh => hv ((survivorsOf_withShared_eq_nil g s bp eg st sk av).mp hh)
          rw [compute_of_success hs ho' hv', compute_of_success hs ho hv]

/-- C10: in every successful result every parsed skill name is a non-empty
string with no quote character and no leading or trailing whitespace, and a
non-string shared_skill_names cell yields the empty skill list. -/
theorem C10_token_hygiene (specialty : Option String) (bp : Option ℚ) (eg st : String)
    (sk : List OverlapRow) (av : List PayRow) (cands : List Candidate)
    (h : compute_skill_transfer_options specialty bp eg st sk av = (none, cands)) :
    (∀ c ∈ cands, ∀ t ∈ c.shared_skill_names,
      t.data ≠ [] ∧ (∀ ch ∈ t.data, isQuote ch = false) ∧
      t.data.dropWhile pyIsSpace = t.data ∧ dropWhileEnd pyIsSpace t.data = t.data) ∧
    safe_parse_skills SkillField.nonString = [] := by
  refine ⟨?_, rfl⟩
  obtain ⟨s, -, -, -, -, hc⟩ := compute_none_inv h
  subst hc
  intro c hcmem t ht
  have hsurv : c ∈ survivorsOf s bp eg st sk av := by
    have hmem := List.mem_of_mem_take hcmem
    rwa [List.mem_insertionSort] at hmem
  obtain ⟨x, -, b, -, -, hceq⟩ := mem_survivorsOf hsurv
  subst hceq
  exact safe_parse_skills_mem ht

/-- Witness for C10 at a concrete profile and tables. -/
theorem C10_token_hygiene_witness :
    compute_skill_transfer_options (some "ICU") (some 45) "5-10" "TX"
      [sampleOverlapRow] [samplePayRow]
      = (none, (compute_skill_transfer_options (some "ICU") (some 45) "5-10" "TX"
          [sampleOverlapRow] [samplePayRow]).2) ∧
    ((∀ c ∈ (compute_skill_transfer_options (some "ICU") (some 45) "5-10" "TX"
        [sampleOverlapRow] [samplePayRow]).2, ∀ t ∈ c.shared_skill_names,
      t.data ≠ [] ∧ (∀ ch ∈ t.data, isQuote ch = false) ∧
      t.data.dropWhile pyIsSpace = t.data ∧ dropWhileEnd pyIsSpace t.data = t.data) ∧
    safe_parse_skills SkillField.nonString = []) :=
  ⟨by with_unfolding_all rfl,
   C10_token_hygiene (some "ICU") (some 45) "5-10" "TX"
     [sampleOverlapRow] [samplePayRow] _ (by with_unfolding_all rfl)⟩

end NursingApp
